import Mathlib

/-!
# Verification of the trx-processor transaction engine

A shallow embedding of the `trx-processor` repository (Rust): the exact decimal
amount type, the `Account` and `Transaction` entity model (`src/model/account.rs`,
`src/model/transaction.rs`), and the `TransactionProcessor` handlers
(`src/processor.rs`).  Amounts are modelled as scaled integers
(mantissa / 10 ^ scale), mirroring the external `rust_decimal::Decimal`
representation used by the source; the `DashMap` stores are modelled as
association lists keyed by client id / transaction id.  The per-client mutex
only sequentializes records of one client and carries no data, so the
sequential record stream is processed by a fold over the state.
-/

/-- Exact decimal number: `mantissa / 10 ^ scale`.  Models the representation
of the external `rust_decimal::Decimal` type used for all amounts. -/
structure Decimal where
  mantissa : Int
  scale : Nat
deriving DecidableEq

namespace Decimal

/-- `Decimal::ZERO`. -/
def ZERO : Decimal := ⟨0, 0⟩

/-- Mantissa of `a` rescaled to scale `s` (for `a.scale ≤ s`). -/
def rescaleM (a : Decimal) (s : Nat) : Int :=
  a.mantissa * (10 : Int) ^ (s - a.scale)

/-- Addition: align both operands to the larger scale and add mantissas
(`rust_decimal` addition, overflow aside). -/
def add (a b : Decimal) : Decimal :=
  ⟨rescaleM a (max a.scale b.scale) + rescaleM b (max a.scale b.scale), max a.scale b.scale⟩

/-- Subtraction: align both operands to the larger scale and subtract mantissas. -/
def sub (a b : Decimal) : Decimal :=
  ⟨rescaleM a (max a.scale b.scale) - rescaleM b (max a.scale b.scale), max a.scale b.scale⟩

/-- Numeric strict order (`<` of `rust_decimal`'s `PartialOrd`). -/
def lt (a b : Decimal) : Bool :=
  decide (rescaleM a (max a.scale b.scale) < rescaleM b (max a.scale b.scale))

/-- Numeric non-strict order (`<=` of `rust_decimal`'s `PartialOrd`). -/
def le (a b : Decimal) : Bool :=
  decide (rescaleM a (max a.scale b.scale) ≤ rescaleM b (max a.scale b.scale))

/-- The exact rational value denoted by a `Decimal`. -/
def toRat (a : Decimal) : Rat :=
  Rat.divInt a.mantissa ((10 : Int) ^ a.scale)

/-- Round `m / d` to the nearest integer, ties to even (the banker's rounding
used by `rust_decimal::Decimal::round_dp`), for nonnegative `m`. -/
def roundHalfEvenPos (m d : Nat) : Nat :=
  let q := m / d
  let r := m % d
  if 2 * r < d then q
  else if d < 2 * r then q + 1
  else if q % 2 = 0 then q else q + 1

/-- `Decimal::round_dp(dp)`: values whose scale already fits are returned
unchanged (no padding); larger scales are rounded half-to-even to scale `dp`. -/
def round_dp (a : Decimal) (dp : Nat) : Decimal :=
  if a.scale ≤ dp then a
  else
    let q := roundHalfEvenPos a.mantissa.natAbs (10 ^ (a.scale - dp))
    ⟨if a.mantissa < 0 then -(q : Int) else (q : Int), dp⟩

/-- The character of a single decimal digit. -/
def digitChar (d : Nat) : Char := Char.ofNat (48 + d)

/-- Decimal digit characters of a natural number, most significant first;
structural recursion on a fuel bound so the kernel can evaluate it. -/
def natCharsAux : Nat → Nat → List Char
  | 0, _ => []
  | fuel + 1, n =>
    if n < 10 then [digitChar n]
    else natCharsAux fuel (n / 10) ++ [digitChar (n % 10)]

/-- Decimal digit characters of a natural number, most significant first. -/
def natChars (n : Nat) : List Char := natCharsAux (n + 1) n

/-- Character rendering of a `Decimal` (the `Display` implementation of
`rust_decimal`): optional sign, integer part, and — when the scale is
positive — a point followed by exactly `scale` fractional digits. -/
def toChars (a : Decimal) : List Char :=
  let sign : List Char := if a.mantissa < 0 then ['-'] else []
  let n := a.mantissa.natAbs
  if a.scale = 0 then sign ++ natChars n
  else
    let d := 10 ^ a.scale
    let fpChars := natChars (n % d)
    sign ++ natChars (n / d) ++ ['.'] ++
      List.replicate (a.scale - fpChars.length) '0' ++ fpChars

/-- `Decimal::to_string()`. -/
def toString (a : Decimal) : String := ⟨toChars a⟩

end Decimal

/-- `Account` (src/model/account.rs).  The `ordering_lock` field is a mutex on
unit: it carries no data and only sequentializes one client's records, so it is
omitted from the sequential model. -/
structure Account where
  client_id : Nat
  available : Decimal
  held : Decimal
  locked : Bool
deriving DecidableEq

/-- `AccountOutput` (src/model/account.rs): the row written to the snapshot. -/
structure AccountOutput where
  client : Nat
  available : Decimal
  held : Decimal
  total : Decimal
  locked : Bool
deriving DecidableEq

/-- `serialize_decimal` (src/model/account.rs): round to 4 decimal places and
render with `to_string`. -/
def serialize_decimal (value : Decimal) : String :=
  Decimal.toString (Decimal.round_dp value 4)

namespace Account

/-- `Account::new`. -/
def new (client_id : Nat) : Account :=
  ⟨client_id, Decimal.ZERO, Decimal.ZERO, false⟩

/-- `Account::total`. -/
def total (a : Account) : Decimal := a.available.add a.held

/-- `Account::deposit`: returns `(success, updated account)`; fails when the
account is locked, otherwise adds to the available balance. -/
def deposit (a : Account) (amount : Decimal) : Bool × Account :=
  if a.locked then (false, a)
  else (true, { a with available := a.available.add amount })

/-- `Account::withdraw`: fails when locked or `available < amount`. -/
def withdraw (a : Account) (amount : Decimal) : Bool × Account :=
  if a.locked || a.available.lt amount then (false, a)
  else (true, { a with available := a.available.sub amount })

/-- `Account::hold_funds`: fails when `available < amount`; the lock flag is
not checked. -/
def hold_funds (a : Account) (amount : Decimal) : Bool × Account :=
  if a.available.lt amount then (false, a)
  else (true, { a with available := a.available.sub amount, held := a.held.add amount })

/-- `Account::release_funds`: fails when `held < amount`. -/
def release_funds (a : Account) (amount : Decimal) : Bool × Account :=
  if a.held.lt amount then (false, a)
  else (true, { a with held := a.held.sub amount, available := a.available.add amount })

/-- `Account::chargeback`: fails when `held < amount`; on success subtracts
from held and sets the lock. -/
def chargeback (a : Account) (amount : Decimal) : Bool × Account :=
  if a.held.lt amount then (false, a)
  else (true, { a with held := a.held.sub amount, locked := true })

/-- `Account::to_output`. -/
def to_output (a : Account) : AccountOutput :=
  ⟨a.client_id, a.available, a.held, a.total, a.locked⟩

end Account

/-- `TransactionType` (src/model/transaction.rs). -/
inductive TransactionType where
  | Deposit
  | Withdrawal
  | Dispute
  | Resolve
  | Chargeback
deriving DecidableEq

/-- `TransactionState` (src/model/transaction.rs). -/
inductive TransactionState where
  | Normal
  | UnderDispute
  | ChargedBack
deriving DecidableEq

/-- `Transaction` (src/model/transaction.rs): the ledger entry stored for an
accepted deposit. -/
structure Transaction where
  tx_id : Nat
  client_id : Nat
  transaction_type : TransactionType
  amount : Decimal
  state : TransactionState
deriving DecidableEq

/-- `Transaction::new`: a fresh entry always starts in state `Normal`. -/
def Transaction.new (tx_id client_id : Nat) (transaction_type : TransactionType)
    (amount : Decimal) : Transaction :=
  ⟨tx_id, client_id, transaction_type, amount, TransactionState.Normal⟩

/-- `TransactionInput` (src/model/transaction.rs): one typed input record. -/
structure TransactionInput where
  transaction_type : TransactionType
  client : Nat
  tx : Nat
  amount : Option Decimal
deriving DecidableEq

/-- One raw CSV row whose `amount` field has not been parsed yet; `none` when
the field is absent. -/
structure RawRecord where
  transaction_type : TransactionType
  client : Nat
  tx : Nat
  amount : Option String

/-- Value of a list of digit characters read in base 10. -/
def digitsVal (l : List Char) : Nat :=
  l.foldl (fun acc c => acc * 10 + (c.toNat - 48)) 0

/-- Modelled from the spec: the decimal grammar accepted by the external
`rust_decimal` parser (`Decimal::from_str`), which is not part of this
repository — "amount (decimal with up to 4+ fractional digits)".  Digits with
an optional single point; the digit count fixes the scale. -/
def parseUnsignedDecimal (l : List Char) : Option Decimal :=
  match l.splitOn '.' with
  | [ip] =>
    if ip.length ≠ 0 ∧ ip.all Char.isDigit then some ⟨(digitsVal ip : Int), 0⟩ else none
  | [ip, fp] =>
    if ip.length + fp.length ≠ 0 ∧ ip.all Char.isDigit ∧ fp.all Char.isDigit then
      some ⟨(digitsVal (ip ++ fp) : Int), fp.length⟩
    else none
  | _ => none

/-- Modelled from the spec: `Decimal::from_str` of the external `rust_decimal`
crate, with an optional leading sign. -/
def parseDecimal (s : String) : Option Decimal :=
  match s.data with
  | [] => none
  | '-' :: rest => (parseUnsignedDecimal rest).map (fun d => ⟨-d.mantissa, d.scale⟩)
  | '+' :: rest => parseUnsignedDecimal rest
  | l => parseUnsignedDecimal l

/-- Whitespace removal at both ends (`str::trim`), over the character list so
the kernel can evaluate it. -/
def trimString (s : String) : String :=
  ⟨(((s.data.dropWhile Char.isWhitespace).reverse.dropWhile Char.isWhitespace).reverse)⟩

/-- `deserialize_optional_amount` (src/model/transaction.rs): an absent or
blank field is `none`; otherwise the field must parse as a decimal, and a
parse failure is a row error (`Invalid amount`). -/
def deserialize_optional_amount (field : Option String) : Except String (Option Decimal) :=
  match field with
  | none => Except.ok none
  | some s =>
    if trimString s = "" then Except.ok none
    else
      match parseDecimal (trimString s) with
      | some v => Except.ok (some v)
      | none => Except.error ("Invalid amount: " ++ s)

instance {α β : Type} [DecidableEq α] [DecidableEq β] : DecidableEq (Except α β) := fun x y =>
  match x, y with
  | Except.ok a, Except.ok b =>
    if h : a = b then isTrue (by rw [h]) else isFalse (fun hh => by cases hh; exact h rfl)
  | Except.error a, Except.error b =>
    if h : a = b then isTrue (by rw [h]) else isFalse (fun hh => by cases hh; exact h rfl)
  | Except.ok _, Except.error _ => isFalse (fun hh => by cases hh)
  | Except.error _, Except.ok _ => isFalse (fun hh => by cases hh)

/-- Lookup in an association-list model of `DashMap` (first binding wins). -/
def alookup {α : Type} : List (Nat × α) → Nat → Option α
  | [], _ => none
  | (k, v) :: rest, k' => if k' = k then some v else alookup rest k'

/-- Overwriting insert in the association-list model of `DashMap::insert` /
in-place mutation through a map guard. -/
def aset {α : Type} : List (Nat × α) → Nat → α → List (Nat × α)
  | [], k, v => [(k, v)]
  | (k', v') :: rest, k, v =>
    if k = k' then (k, v) :: rest else (k', v') :: aset rest k v

/-- `self.accounts.entry(client).or_insert_with(|| Account::new(client))`. -/
def getOrCreateA (m : List (Nat × Account)) (k : Nat) : List (Nat × Account) :=
  match alookup m k with
  | some _ => m
  | none => (k, Account.new k) :: m

/-- `TransactionProcessor` (src/processor.rs): the two `DashMap` stores.  The
optional audit logger only emits text and never affects the stores, so it is
omitted. -/
structure TransactionProcessor where
  accounts : List (Nat × Account)
  transactions : List (Nat × Transaction)
deriving DecidableEq

/-- `TransactionProcessor::new`. -/
def TransactionProcessor.new : TransactionProcessor := ⟨[], []⟩

/-- `handle_deposit` (src/processor.rs). -/
def handle_deposit (s : TransactionProcessor) (record : TransactionInput) :
    TransactionProcessor :=
  match record.amount with
  | none => s
  | some amount =>
    if amount.le Decimal.ZERO then s
    else
      let accounts1 := getOrCreateA s.accounts record.client
      match alookup accounts1 record.client with
      | none => s
      | some account =>
        match account.deposit amount with
        | (true, account1) =>
          ⟨aset accounts1 record.client account1,
            aset s.transactions record.tx
              (Transaction.new record.tx record.client record.transaction_type amount)⟩
        | (false, _) => { s with accounts := accounts1 }

/-- `handle_withdrawal` (src/processor.rs). -/
def handle_withdrawal (s : TransactionProcessor) (record : TransactionInput) :
    TransactionProcessor :=
  match record.amount with
  | none => s
  | some amount =>
    if amount.le Decimal.ZERO then s
    else
      let accounts1 := getOrCreateA s.accounts record.client
      match alookup accounts1 record.client with
      | none => s
      | some account =>
        match account.withdraw amount with
        | (true, account1) => { s with accounts := aset accounts1 record.client account1 }
        | (false, _) => { s with accounts := accounts1 }

/-- `handle_dispute` (src/processor.rs). -/
def handle_dispute (s : TransactionProcessor) (record : TransactionInput) :
    TransactionProcessor :=
  match alookup s.transactions record.tx with
  | none => s
  | some txn =>
    if txn.client_id ≠ record.client then s
    else if txn.transaction_type ≠ TransactionType.Deposit then s
    else if txn.state ≠ TransactionState.Normal then s
    else
      match alookup s.accounts record.client with
      | none => s
      | some account =>
        match account.hold_funds txn.amount with
        | (true, account1) =>
          ⟨aset s.accounts record.client account1,
            aset s.transactions record.tx { txn with state := TransactionState.UnderDispute }⟩
        | (false, _) => s

/-- `handle_resolve` (src/processor.rs). -/
def handle_resolve (s : TransactionProcessor) (record : TransactionInput) :
    TransactionProcessor :=
  match alookup s.transactions record.tx with
  | none => s
  | some txn =>
    if txn.client_id ≠ record.client then s
    else if txn.state ≠ TransactionState.UnderDispute then s
    else
      match alookup s.accounts record.client with
      | none => s
      | some account =>
        match account.release_funds txn.amount with
        | (true, account1) =>
          ⟨aset s.accounts record.client account1,
            aset s.transactions record.tx { txn with state := TransactionState.Normal }⟩
        | (false, _) => s

/-- `handle_chargeback` (src/processor.rs). -/
def handle_chargeback (s : TransactionProcessor) (record : TransactionInput) :
    TransactionProcessor :=
  match alookup s.transactions record.tx with
  | none => s
  | some txn =>
    if txn.client_id ≠ record.client then s
    else if txn.state ≠ TransactionState.UnderDispute then s
    else
      match alookup s.accounts record.client with
      | none => s
      | some account =>
        match account.chargeback txn.amount with
        | (true, account1) =>
          ⟨aset s.accounts record.client account1,
            aset s.transactions record.tx { txn with state := TransactionState.ChargedBack }⟩
        | (false, _) => s

/-- `process_transaction` (src/processor.rs): get-or-create the client's
account (this is where the ordering lock is materialized — it happens for
every record, whatever its type or validity), then dispatch on the type. -/
def process_transaction (s : TransactionProcessor) (record : TransactionInput) :
    TransactionProcessor :=
  let s1 : TransactionProcessor := { s with accounts := getOrCreateA s.accounts record.client }
  match record.transaction_type with
  | TransactionType.Deposit => handle_deposit s1 record
  | TransactionType.Withdrawal => handle_withdrawal s1 record
  | TransactionType.Dispute => handle_dispute s1 record
  | TransactionType.Resolve => handle_resolve s1 record
  | TransactionType.Chargeback => handle_chargeback s1 record

/-- The record loop of `process_file` applied to already-parsed records. -/
def process_all (s : TransactionProcessor) (records : List TransactionInput) :
    TransactionProcessor :=
  records.foldl process_transaction s

/-- `process_file` (src/processor.rs): deserialize each row in order; a row
error is returned immediately (`?`), abandoning the remaining rows. -/
def process_file (s : TransactionProcessor) :
    List RawRecord → Except String TransactionProcessor
  | [] => Except.ok s
  | r :: rest =>
    match deserialize_optional_amount r.amount with
    | Except.error e => Except.error e
    | Except.ok amt =>
      process_file (process_transaction s ⟨r.transaction_type, r.client, r.tx, amt⟩) rest

/-- `output_accounts` (src/processor.rs): snapshot the account values, sort by
client id, render each through `to_output`. -/
def output_accounts (s : TransactionProcessor) : List AccountOutput :=
  ((s.accounts.map Prod.snd).insertionSort (fun a b => a.client_id ≤ b.client_id)).map
    Account.to_output

/-- Number of fractional digits of a rendered amount: the characters after the
last point, `0` when there is no point. -/
def fracLen (s : String) : Nat :=
  if '.' ∈ s.data then (s.data.reverse.takeWhile (fun c => c ≠ '.')).length else 0

/-! ## Concrete objects used to instantiate the claim theorems -/

def exC1rs : List TransactionInput := [⟨TransactionType.Deposit, 1, 1, some ⟨5, 0⟩⟩]

def exC1acc : Account := ⟨1, ⟨5, 0⟩, ⟨0, 0⟩, false⟩

def exC2pre : List TransactionInput :=
  [⟨TransactionType.Deposit, 1, 1, some ⟨3, 0⟩⟩,
   ⟨TransactionType.Dispute, 1, 1, none⟩,
   ⟨TransactionType.Chargeback, 1, 1, none⟩]

def exC2full : List TransactionInput :=
  exC2pre ++ [⟨TransactionType.Deposit, 2, 1, some ⟨5, 0⟩⟩, ⟨TransactionType.Dispute, 2, 1, none⟩]

def exC2s : TransactionProcessor :=
  ⟨[(1, ⟨1, ⟨0, 0⟩, ⟨0, 0⟩, true⟩)],
   [(7, ⟨7, 1, TransactionType.Deposit, ⟨3, 0⟩, TransactionState.ChargedBack⟩)]⟩

def exC2r : TransactionInput := ⟨TransactionType.Dispute, 1, 7, none⟩

def exC2txn : Transaction := ⟨7, 1, TransactionType.Deposit, ⟨3, 0⟩, TransactionState.ChargedBack⟩

def exC2acc : Account := ⟨1, ⟨0, 0⟩, ⟨0, 0⟩, true⟩

def exC2Told : Transaction := ⟨7, 1, TransactionType.Deposit, ⟨3, 0⟩, TransactionState.Normal⟩

def exC2Tnew : Transaction :=
  ⟨7, 1, TransactionType.Deposit, ⟨3, 0⟩, TransactionState.UnderDispute⟩

def exC3r : TransactionInput := ⟨TransactionType.Dispute, 1, 99, none⟩

def exC4s : TransactionProcessor :=
  ⟨[(1, ⟨1, ⟨5, 0⟩, ⟨0, 0⟩, true⟩)],
   [(7, ⟨7, 1, TransactionType.Deposit, ⟨3, 0⟩, TransactionState.Normal⟩)]⟩

def exC4r : TransactionInput := ⟨TransactionType.Dispute, 1, 7, none⟩

def exC5s : TransactionProcessor :=
  ⟨[], [(7, ⟨7, 2, TransactionType.Deposit, ⟨9, 0⟩, TransactionState.ChargedBack⟩)]⟩

def exC5r : TransactionInput := ⟨TransactionType.Deposit, 1, 7, some ⟨4, 0⟩⟩

def exC5told : Transaction := ⟨7, 2, TransactionType.Deposit, ⟨9, 0⟩, TransactionState.ChargedBack⟩

def exC6s : TransactionProcessor := ⟨[(1, ⟨1, ⟨2, 0⟩, ⟨0, 0⟩, true⟩)], []⟩

def exC6r : TransactionInput := ⟨TransactionType.Deposit, 1, 5, some ⟨3, 0⟩⟩

def exC6acc : Account := ⟨1, ⟨2, 0⟩, ⟨0, 0⟩, true⟩

def exC7r : TransactionInput := ⟨TransactionType.Deposit, 1, 1, some ⟨1, 0⟩⟩

def exC7row : AccountOutput := ⟨1, ⟨1, 0⟩, ⟨0, 0⟩, ⟨1, 0⟩, false⟩

def exC8badRow : RawRecord := ⟨TransactionType.Deposit, 1, 1, some "abc"⟩

def exC8goodRow : RawRecord := ⟨TransactionType.Deposit, 1, 2, some "5"⟩

def exC8zeroRow : RawRecord := ⟨TransactionType.Deposit, 1, 1, some "0"⟩

def exC8state : TransactionProcessor := ⟨[(1, Account.new 1)], []⟩

def exC9rs : List TransactionInput := [⟨TransactionType.Deposit, 2, 8, some ⟨7, 0⟩⟩]

def exC9txn : Transaction := ⟨8, 2, TransactionType.Deposit, ⟨7, 0⟩, TransactionState.Normal⟩

def exC10a : Account := ⟨1, ⟨6, 0⟩, ⟨2, 0⟩, false⟩

def exC10m : Decimal := ⟨4, 0⟩

/-- Account store well-formedness: both balances are nonnegative and each
account is stored under its own client id. -/
def AccWF (m : List (Nat × Account)) : Prop :=
  ∀ c a, alookup m c = some a →
    0 ≤ a.available.toRat ∧ 0 ≤ a.held.toRat ∧ a.client_id = c

/-- Ledger well-formedness: every entry is a deposit with strictly positive
amount, stored under its own transaction id. -/
def TxWF (T : List (Nat × Transaction)) : Prop :=
  ∀ t txn, alookup T t = some txn →
    txn.transaction_type = TransactionType.Deposit ∧ 0 < txn.amount.toRat ∧ txn.tx_id = t

/-- The processor invariant maintained by every record. -/
def ProcInv (s : TransactionProcessor) : Prop :=
  AccWF s.accounts ∧ TxWF s.transactions ∧ (s.accounts.map Prod.fst).Nodup

instance : IsTotal Account (fun a b => a.client_id ≤ b.client_id) :=
  ⟨fun _x _y => Nat.le_total _ _⟩

instance : IsTrans Account (fun a b => a.client_id ≤ b.client_id) :=
  ⟨fun _x _y _z => Nat.le_trans⟩

/-! ## Decimal value lemmas -/

namespace Decimal

theorem toRat_eq (a : Decimal) : a.toRat = (a.mantissa : Rat) / (10 : Rat) ^ a.scale := by
  rw [toRat, Rat.divInt_eq_div]
  push_cast
  ring

theorem toRat_rescale (a : Decimal) (s : Nat) (h : a.scale ≤ s) :
    ((rescaleM a s : Int) : Rat) / (10 : Rat) ^ s = a.toRat := by
  rw [toRat_eq, rescaleM]
  have hsplit : (10 : Rat) ^ s = 10 ^ a.scale * 10 ^ (s - a.scale) := by
    rw [← pow_add]
    congr 1
    omega
  have h1 : (10 : Rat) ^ a.scale ≠ 0 := by positivity
  have h2 : (10 : Rat) ^ (s - a.scale) ≠ 0 := by positivity
  rw [hsplit]
  push_cast
  field_simp
  ring

theorem toRat_add (a b : Decimal) : (a.add b).toRat = a.toRat + b.toRat := by
  rw [add, toRat_eq]
  show ((rescaleM a (max a.scale b.scale) + rescaleM b (max a.scale b.scale) : Int) : Rat) / _ = _
  rw [Int.cast_add, add_div, toRat_rescale a _ (le_max_left _ _),
    toRat_rescale b _ (le_max_right _ _)]

theorem toRat_sub (a b : Decimal) : (a.sub b).toRat = a.toRat - b.toRat := by
  rw [sub, toRat_eq]
  show ((rescaleM a (max a.scale b.scale) - rescaleM b (max a.scale b.scale) : Int) : Rat) / _ = _
  rw [Int.cast_sub, sub_div, toRat_rescale a _ (le_max_left _ _),
    toRat_rescale b _ (le_max_right _ _)]

theorem toRat_ZERO : ZERO.toRat = 0 := by
  rw [toRat_eq]
  norm_num [ZERO]

theorem lt_iff (a b : Decimal) : a.lt b = true ↔ a.toRat < b.toRat := by
  rw [lt, decide_eq_true_iff,
    ← toRat_rescale a (max a.scale b.scale) (le_max_left _ _),
    ← toRat_rescale b (max a.scale b.scale) (le_max_right _ _)]
  rw [div_lt_div_iff_of_pos_right (by positivity)]
  exact Iff.symm Int.cast_lt

theorem le_iff (a b : Decimal) : a.le b = true ↔ a.toRat ≤ b.toRat := by
  rw [le, decide_eq_true_iff,
    ← toRat_rescale a (max a.scale b.scale) (le_max_left _ _),
    ← toRat_rescale b (max a.scale b.scale) (le_max_right _ _)]
  rw [div_le_div_iff_of_pos_right (by positivity)]
  exact Iff.symm Int.cast_le

theorem lt_eq_false_iff (a b : Decimal) : a.lt b = false ↔ b.toRat ≤ a.toRat := by
  rw [← Bool.not_eq_true, not_iff_comm, lt_iff]
  push_neg
  rfl

theorem le_eq_false_iff (a b : Decimal) : a.le b = false ↔ b.toRat < a.toRat := by
  rw [← Bool.not_eq_true, not_iff_comm, le_iff]
  push_neg
  rfl

end Decimal

/-! ## Association map lemmas -/

theorem alookup_aset {α : Type} (m : List (Nat × α)) (k : Nat) (v : α) (j : Nat) :
    alookup (aset m k v) j = if j = k then some v else alookup m j := by
  induction m with
  | nil => simp [aset, alookup]
  | cons p rest ih =>
    obtain ⟨k1, v1⟩ := p
    by_cases hk : k = k1
    · subst hk
      by_cases hj : j = k <;> simp [aset, alookup, hj]
    · by_cases hj : j = k1
      · subst hj
        have hjk : ¬j = k := fun h => hk h.symm
        simp [aset, alookup, hk, hjk]
      · simp [aset, alookup, hk, hj, ih]

theorem alookup_getOrCreateA (m : List (Nat × Account)) (k j : Nat) :
    alookup (getOrCreateA m k) j =
      if j = k then some ((alookup m k).getD (Account.new k)) else alookup m j := by
  rw [getOrCreateA]
  cases hm : alookup m k with
  | some a =>
    by_cases hj : j = k <;> simp [hj, hm]
  | none =>
    by_cases hj : j = k <;> simp [alookup, hj, hm]

theorem alookup_getOrCreateA_self (m : List (Nat × Account)) (k : Nat) :
    alookup (getOrCreateA m k) k = some ((alookup m k).getD (Account.new k)) := by
  rw [alookup_getOrCreateA]
  simp

theorem alookup_getOrCreateA_of_some (m : List (Nat × Account)) (k j : Nat) (a : Account)
    (h : alookup m j = some a) : alookup (getOrCreateA m k) j = some a := by
  rw [alookup_getOrCreateA]
  by_cases hj : j = k
  · subst hj
    simp [h]
  · simp [hj, h]

theorem alookup_isSome_iff_mem {α : Type} (m : List (Nat × α)) (k : Nat) :
    (alookup m k).isSome = true ↔ k ∈ m.map Prod.fst := by
  induction m with
  | nil => simp [alookup]
  | cons p rest ih =>
    obtain ⟨k1, v1⟩ := p
    by_cases hk : k = k1 <;> simp [alookup, hk, ih]

theorem map_fst_aset_of_mem {α : Type} (m : List (Nat × α)) (k : Nat) (v : α)
    (h : k ∈ m.map Prod.fst) : (aset m k v).map Prod.fst = m.map Prod.fst := by
  induction m with
  | nil => simp at h
  | cons p rest ih =>
    obtain ⟨k1, v1⟩ := p
    by_cases hk : k = k1
    · subst hk
      simp [aset]
    · simp only [List.map_cons, List.mem_cons] at h
      rcases h with h | h
      · exact absurd h hk
      · simp [aset, hk, ih h]

theorem nodup_getOrCreateA (m : List (Nat × Account)) (k : Nat)
    (h : (m.map Prod.fst).Nodup) : ((getOrCreateA m k).map Prod.fst).Nodup := by
  rw [getOrCreateA]
  cases hm : alookup m k with
  | some a => exact h
  | none =>
    simp only [List.map_cons, List.nodup_cons]
    refine ⟨fun hmem => ?_, h⟩
    rw [← alookup_isSome_iff_mem] at hmem
    rw [hm] at hmem
    simp at hmem

/-! ## Account operation inversion lemmas -/

theorem Account.deposit_true {a a1 : Account} {m : Decimal} (h : a.deposit m = (true, a1)) :
    a.locked = false ∧ a1 = { a with available := a.available.add m } := by
  unfold Account.deposit at h
  split at h
  · simp at h
  · rename_i hcond
    injection h with h1 h2
    exact ⟨Bool.not_eq_true _ ▸ hcond, h2.symm⟩

theorem Account.withdraw_true {a a1 : Account} {m : Decimal} (h : a.withdraw m = (true, a1)) :
    a.locked = false ∧ a.available.lt m = false ∧
      a1 = { a with available := a.available.sub m } := by
  unfold Account.withdraw at h
  split at h
  · simp at h
  · rename_i hcond
    simp only [Bool.or_eq_true, not_or, Bool.not_eq_true] at hcond
    injection h with h1 h2
    exact ⟨hcond.1, hcond.2, h2.symm⟩

theorem Account.hold_funds_true {a a1 : Account} {m : Decimal} (h : a.hold_funds m = (true, a1)) :
    a.available.lt m = false ∧
      a1 = { a with available := a.available.sub m, held := a.held.add m } := by
  unfold Account.hold_funds at h
  split at h
  · simp at h
  · rename_i hcond
    injection h with h1 h2
    exact ⟨Bool.not_eq_true _ ▸ hcond, h2.symm⟩

theorem Account.release_funds_true {a a1 : Account} {m : Decimal}
    (h : a.release_funds m = (true, a1)) :
    a.held.lt m = false ∧
      a1 = { a with held := a.held.sub m, available := a.available.add m } := by
  unfold Account.release_funds at h
  split at h
  · simp at h
  · rename_i hcond
    injection h with h1 h2
    exact ⟨Bool.not_eq_true _ ▸ hcond, h2.symm⟩

theorem Account.chargeback_true {a a1 : Account} {m : Decimal}
    (h : a.chargeback m = (true, a1)) :
    a.held.lt m = false ∧ a1 = { a with held := a.held.sub m, locked := true } := by
  unfold Account.chargeback at h
  split at h
  · simp at h
  · rename_i hcond
    injection h with h1 h2
    exact ⟨Bool.not_eq_true _ ▸ hcond, h2.symm⟩

/-! ## Reachable-state invariant -/


theorem AccWF_getOrCreateA {m : List (Nat × Account)} (k : Nat) (h : AccWF m) :
    AccWF (getOrCreateA m k) := by
  intro c a hc
  rw [alookup_getOrCreateA] at hc
  by_cases hck : c = k
  · subst hck
    cases hm : alookup m c with
    | some a0 =>
      rw [hm] at hc
      simp at hc
      exact hc ▸ h c a0 hm
    | none =>
      rw [hm] at hc
      simp at hc
      subst hc
      refine ⟨?_, ?_, rfl⟩ <;> simp [Account.new, Decimal.toRat_ZERO]
  · rw [if_neg hck] at hc
    exact h c a hc

theorem AccWF_aset {m : List (Nat × Account)} {k : Nat} {a : Account} (h : AccWF m)
    (ha : 0 ≤ a.available.toRat ∧ 0 ≤ a.held.toRat ∧ a.client_id = k) :
    AccWF (aset m k a) := by
  intro c b hc
  rw [alookup_aset] at hc
  by_cases hck : c = k
  · rw [if_pos hck] at hc
    cases hc
    exact hck ▸ ha
  · rw [if_neg hck] at hc
    exact h c b hc

theorem TxWF_aset {T : List (Nat × Transaction)} {k : Nat} {txn : Transaction} (h : TxWF T)
    (ht : txn.transaction_type = TransactionType.Deposit ∧ 0 < txn.amount.toRat ∧ txn.tx_id = k) :
    TxWF (aset T k txn) := by
  intro t b hc
  rw [alookup_aset] at hc
  by_cases hck : t = k
  · rw [if_pos hck] at hc
    cases hc
    exact hck ▸ ht
  · rw [if_neg hck] at hc
    exact h t b hc

theorem nodup_aset_of_isSome {α : Type} {m : List (Nat × α)} {k : Nat} {v : α}
    (hk : (alookup m k).isSome = true) (h : (m.map Prod.fst).Nodup) :
    ((aset m k v).map Prod.fst).Nodup := by
  rw [map_fst_aset_of_mem m k v ((alookup_isSome_iff_mem m k).mp hk)]
  exact h


theorem ProcInv_handle_deposit {s : TransactionProcessor} {r : TransactionInput}
    (ht : r.transaction_type = TransactionType.Deposit) (h : ProcInv s) :
    ProcInv (handle_deposit s r) := by
  obtain ⟨hA, hT, hN⟩ := h
  simp only [handle_deposit]
  split
  · exact ⟨hA, hT, hN⟩
  · rename_i amount hamt
    split
    · exact ⟨hA, hT, hN⟩
    · rename_i hle
      split
      · exact ⟨hA, hT, hN⟩
      · rename_i account hacc
        split
        · rename_i account1 hdep
          have hle' : amount.le Decimal.ZERO = false := by
            revert hle
            cases amount.le Decimal.ZERO <;> simp
          have hampos : 0 < amount.toRat := by
            have hx := (Decimal.le_eq_false_iff amount Decimal.ZERO).mp hle'
            rw [Decimal.toRat_ZERO] at hx
            exact hx
          obtain ⟨hlk, haccount1⟩ := Account.deposit_true hdep
          have hWF1 := AccWF_getOrCreateA r.client hA
          have haprops := hWF1 r.client account hacc
          refine ⟨AccWF_aset hWF1 ?_, TxWF_aset hT ?_, nodup_aset_of_isSome
            (by rw [hacc]; rfl) (nodup_getOrCreateA _ _ hN)⟩
          · subst haccount1
            refine ⟨?_, haprops.2.1, haprops.2.2⟩
            show 0 ≤ (account.available.add amount).toRat
            rw [Decimal.toRat_add]
            linarith [haprops.1]
          · exact ⟨ht, hampos, rfl⟩
        · exact ⟨AccWF_getOrCreateA _ hA, hT, nodup_getOrCreateA _ _ hN⟩

theorem ProcInv_handle_withdrawal {s : TransactionProcessor} {r : TransactionInput}
    (h : ProcInv s) : ProcInv (handle_withdrawal s r) := by
  obtain ⟨hA, hT, hN⟩ := h
  simp only [handle_withdrawal]
  split
  · exact ⟨hA, hT, hN⟩
  · rename_i amount hamt
    split
    · exact ⟨hA, hT, hN⟩
    · split
      · exact ⟨hA, hT, hN⟩
      · rename_i account hacc
        split
        · rename_i account1 hwd
          obtain ⟨hlk, hltf, haccount1⟩ := Account.withdraw_true hwd
          have hWF1 := AccWF_getOrCreateA r.client hA
          have haprops := hWF1 r.client account hacc
          have hge := (Decimal.lt_eq_false_iff account.available amount).mp hltf
          refine ⟨AccWF_aset hWF1 ?_, hT, nodup_aset_of_isSome
            (by rw [hacc]; rfl) (nodup_getOrCreateA _ _ hN)⟩
          subst haccount1
          refine ⟨?_, haprops.2.1, haprops.2.2⟩
          show 0 ≤ (account.available.sub amount).toRat
          rw [Decimal.toRat_sub]
          linarith
        · exact ⟨AccWF_getOrCreateA _ hA, hT, nodup_getOrCreateA _ _ hN⟩

theorem ProcInv_handle_dispute {s : TransactionProcessor} {r : TransactionInput}
    (h : ProcInv s) : ProcInv (handle_dispute s r) := by
  obtain ⟨hA, hT, hN⟩ := h
  simp only [handle_dispute]
  split
  · exact ⟨hA, hT, hN⟩
  · rename_i txn htx
    split
    · exact ⟨hA, hT, hN⟩
    · split
      · exact ⟨hA, hT, hN⟩
      · split
        · exact ⟨hA, hT, hN⟩
        · split
          · exact ⟨hA, hT, hN⟩
          · rename_i account hacc
            split
            · rename_i account1 hop
              obtain ⟨hltf, haccount1⟩ := Account.hold_funds_true hop
              have haprops := hA r.client account hacc
              have htprops := hT r.tx txn htx
              have hge := (Decimal.lt_eq_false_iff account.available txn.amount).mp hltf
              refine ⟨AccWF_aset hA ?_, TxWF_aset hT ?_, nodup_aset_of_isSome
                (by rw [hacc]; rfl) hN⟩
              · subst haccount1
                refine ⟨?_, ?_, haprops.2.2⟩
                · show 0 ≤ (account.available.sub txn.amount).toRat
                  rw [Decimal.toRat_sub]
                  linarith [haprops.1]
                · show 0 ≤ (account.held.add txn.amount).toRat
                  rw [Decimal.toRat_add]
                  linarith [haprops.2.1, htprops.2.1]
              · exact ⟨htprops.1, htprops.2.1, htprops.2.2⟩
            · exact ⟨hA, hT, hN⟩

theorem ProcInv_handle_resolve {s : TransactionProcessor} {r : TransactionInput}
    (h : ProcInv s) : ProcInv (handle_resolve s r) := by
  obtain ⟨hA, hT, hN⟩ := h
  simp only [handle_resolve]
  split
  · exact ⟨hA, hT, hN⟩
  · rename_i txn htx
    split
    · exact ⟨hA, hT, hN⟩
    · split
      · exact ⟨hA, hT, hN⟩
      · split
        · exact ⟨hA, hT, hN⟩
        · rename_i account hacc
          split
          · rename_i account1 hop
            obtain ⟨hltf, haccount1⟩ := Account.release_funds_true hop
            have haprops := hA r.client account hacc
            have htprops := hT r.tx txn htx
            have hge := (Decimal.lt_eq_false_iff account.held txn.amount).mp hltf
            refine ⟨AccWF_aset hA ?_, TxWF_aset hT ?_, nodup_aset_of_isSome
              (by rw [hacc]; rfl) hN⟩
            · subst haccount1
              refine ⟨?_, ?_, haprops.2.2⟩
              · show 0 ≤ (account.available.add txn.amount).toRat
                rw [Decimal.toRat_add]
                linarith [haprops.1, htprops.2.1]
              · show 0 ≤ (account.held.sub txn.amount).toRat
                rw [Decimal.toRat_sub]
                linarith [haprops.2.1]
            · exact ⟨htprops.1, htprops.2.1, htprops.2.2⟩
          · exact ⟨hA, hT, hN⟩

theorem ProcInv_handle_chargeback {s : TransactionProcessor} {r : TransactionInput}
    (h : ProcInv s) : ProcInv (handle_chargeback s r) := by
  obtain ⟨hA, hT, hN⟩ := h
  simp only [handle_chargeback]
  split
  · exact ⟨hA, hT, hN⟩
  · rename_i txn htx
    split
    · exact ⟨hA, hT, hN⟩
    · split
      · exact ⟨hA, hT, hN⟩
      · split
        · exact ⟨hA, hT, hN⟩
        · rename_i account hacc
          split
          · rename_i account1 hop
            obtain ⟨hltf, haccount1⟩ := Account.chargeback_true hop
            have haprops := hA r.client account hacc
            have htprops := hT r.tx txn htx
            have hge := (Decimal.lt_eq_false_iff account.held txn.amount).mp hltf
            refine ⟨AccWF_aset hA ?_, TxWF_aset hT ?_, nodup_aset_of_isSome
              (by rw [hacc]; rfl) hN⟩
            · subst haccount1
              refine ⟨haprops.1, ?_, haprops.2.2⟩
              show 0 ≤ (account.held.sub txn.amount).toRat
              rw [Decimal.toRat_sub]
              linarith [haprops.2.1]
            · exact ⟨htprops.1, htprops.2.1, htprops.2.2⟩
          · exact ⟨hA, hT, hN⟩

theorem ProcInv_process_transaction {s : TransactionProcessor} {r : TransactionInput}
    (h : ProcInv s) : ProcInv (process_transaction s r) := by
  obtain ⟨hA, hT, hN⟩ := h
  have h1 : ProcInv { s with accounts := getOrCreateA s.accounts r.client } :=
    ⟨AccWF_getOrCreateA _ hA, hT, nodup_getOrCreateA _ _ hN⟩
  simp only [process_transaction]
  split
  · rename_i ht
    exact ProcInv_handle_deposit ht h1
  · exact ProcInv_handle_withdrawal h1
  · exact ProcInv_handle_dispute h1
  · exact ProcInv_handle_resolve h1
  · exact ProcInv_handle_chargeback h1

theorem ProcInv_new : ProcInv TransactionProcessor.new := by
  refine ⟨fun c a hc => ?_, fun t txn hc => ?_, ?_⟩
  · simp [TransactionProcessor.new, alookup] at hc
  · simp [TransactionProcessor.new, alookup] at hc
  · simp [TransactionProcessor.new]

theorem ProcInv_process_all {s : TransactionProcessor} (records : List TransactionInput)
    (h : ProcInv s) : ProcInv (process_all s records) := by
  induction records generalizing s with
  | nil => exact h
  | cons r rest ih => exact ih (ProcInv_process_transaction h)

theorem ProcInv_reachable (records : List TransactionInput) :
    ProcInv (process_all TransactionProcessor.new records) :=
  ProcInv_process_all records ProcInv_new

/-! ## Account-store shape lemmas -/

theorem handle_deposit_accounts_other (s : TransactionProcessor) (r : TransactionInput)
    (c : Nat) (hcr : c ≠ r.client) :
    alookup (handle_deposit s r).accounts c = alookup s.accounts c := by
  simp only [handle_deposit]
  split
  · rfl
  · split
    · rfl
    · split
      · rfl
      · split <;> simp [alookup_aset, alookup_getOrCreateA, hcr]

theorem handle_withdrawal_accounts_other (s : TransactionProcessor) (r : TransactionInput)
    (c : Nat) (hcr : c ≠ r.client) :
    alookup (handle_withdrawal s r).accounts c = alookup s.accounts c := by
  simp only [handle_withdrawal]
  split
  · rfl
  · split
    · rfl
    · split
      · rfl
      · split <;> simp [alookup_aset, alookup_getOrCreateA, hcr]

theorem handle_dispute_accounts_other (s : TransactionProcessor) (r : TransactionInput)
    (c : Nat) (hcr : c ≠ r.client) :
    alookup (handle_dispute s r).accounts c = alookup s.accounts c := by
  simp only [handle_dispute]
  split
  · rfl
  · split
    · rfl
    · split
      · rfl
      · split
        · rfl
        · split
          · rfl
          · split
            · simp [alookup_aset, hcr]
            · rfl

theorem handle_resolve_accounts_other (s : TransactionProcessor) (r : TransactionInput)
    (c : Nat) (hcr : c ≠ r.client) :
    alookup (handle_resolve s r).accounts c = alookup s.accounts c := by
  simp only [handle_resolve]
  split
  · rfl
  · split
    · rfl
    · split
      · rfl
      · split
        · rfl
        · split
          · simp [alookup_aset, hcr]
          · rfl

theorem handle_chargeback_accounts_other (s : TransactionProcessor) (r : TransactionInput)
    (c : Nat) (hcr : c ≠ r.client) :
    alookup (handle_chargeback s r).accounts c = alookup s.accounts c := by
  simp only [handle_chargeback]
  split
  · rfl
  · split
    · rfl
    · split
      · rfl
      · split
        · rfl
        · split
          · simp [alookup_aset, hcr]
          · rfl

theorem process_transaction_accounts_other (s : TransactionProcessor) (r : TransactionInput)
    (c : Nat) (hcr : c ≠ r.client) :
    alookup (process_transaction s r).accounts c = alookup s.accounts c := by
  have hbase : alookup (getOrCreateA s.accounts r.client) c = alookup s.accounts c := by
    rw [alookup_getOrCreateA, if_neg hcr]
  simp only [process_transaction]
  split
  · rw [handle_deposit_accounts_other _ _ _ hcr]
    exact hbase
  · rw [handle_withdrawal_accounts_other _ _ _ hcr]
    exact hbase
  · rw [handle_dispute_accounts_other _ _ _ hcr]
    exact hbase
  · rw [handle_resolve_accounts_other _ _ _ hcr]
    exact hbase
  · rw [handle_chargeback_accounts_other _ _ _ hcr]
    exact hbase

theorem handle_deposit_accounts_isSome (s : TransactionProcessor) (r : TransactionInput)
    (h : (alookup s.accounts r.client).isSome = true) :
    (alookup (handle_deposit s r).accounts r.client).isSome = true := by
  simp only [handle_deposit]
  split
  · exact h
  · split
    · exact h
    · split
      · exact h
      · split <;> simp [alookup_aset, alookup_getOrCreateA_self]

theorem handle_withdrawal_accounts_isSome (s : TransactionProcessor) (r : TransactionInput)
    (h : (alookup s.accounts r.client).isSome = true) :
    (alookup (handle_withdrawal s r).accounts r.client).isSome = true := by
  simp only [handle_withdrawal]
  split
  · exact h
  · split
    · exact h
    · split
      · exact h
      · split <;> simp [alookup_aset, alookup_getOrCreateA_self]

theorem handle_dispute_accounts_isSome (s : TransactionProcessor) (r : TransactionInput)
    (h : (alookup s.accounts r.client).isSome = true) :
    (alookup (handle_dispute s r).accounts r.client).isSome = true := by
  simp only [handle_dispute]
  split
  · exact h
  · split
    · exact h
    · split
      · exact h
      · split
        · exact h
        · split
          · exact h
          · split
            · simp [alookup_aset]
            · exact h

theorem handle_resolve_accounts_isSome (s : TransactionProcessor) (r : TransactionInput)
    (h : (alookup s.accounts r.client).isSome = true) :
    (alookup (handle_resolve s r).accounts r.client).isSome = true := by
  simp only [handle_resolve]
  split
  · exact h
  · split
    · exact h
    · split
      · exact h
      · split
        · exact h
        · split
          · simp [alookup_aset]
          · exact h

theorem handle_chargeback_accounts_isSome (s : TransactionProcessor) (r : TransactionInput)
    (h : (alookup s.accounts r.client).isSome = true) :
    (alookup (handle_chargeback s r).accounts r.client).isSome = true := by
  simp only [handle_chargeback]
  split
  · exact h
  · split
    · exact h
    · split
      · exact h
      · split
        · exact h
        · split
          · simp [alookup_aset]
          · exact h

theorem process_transaction_accounts_isSome (s : TransactionProcessor) (r : TransactionInput) :
    (alookup (process_transaction s r).accounts r.client).isSome = true := by
  have h1 : (alookup (getOrCreateA s.accounts r.client) r.client).isSome = true := by
    rw [alookup_getOrCreateA_self]
    rfl
  simp only [process_transaction]
  split
  · exact handle_deposit_accounts_isSome _ _ h1
  · exact handle_withdrawal_accounts_isSome _ _ h1
  · exact handle_dispute_accounts_isSome _ _ h1
  · exact handle_resolve_accounts_isSome _ _ h1
  · exact handle_chargeback_accounts_isSome _ _ h1

/-! ## Lock-flag lemmas -/

theorem Account.deposit_locked (a : Account) (m : Decimal) :
    ((a.deposit m).2).locked = a.locked := by
  unfold Account.deposit
  split <;> rfl

theorem Account.withdraw_locked (a : Account) (m : Decimal) :
    ((a.withdraw m).2).locked = a.locked := by
  unfold Account.withdraw
  split <;> rfl

theorem Account.hold_funds_locked (a : Account) (m : Decimal) :
    ((a.hold_funds m).2).locked = a.locked := by
  unfold Account.hold_funds
  split <;> rfl

theorem Account.release_funds_locked (a : Account) (m : Decimal) :
    ((a.release_funds m).2).locked = a.locked := by
  unfold Account.release_funds
  split <;> rfl

theorem Account.chargeback_locked (a : Account) (m : Decimal) :
    ((a.chargeback m).2).locked = (if (a.chargeback m).1 then true else a.locked) := by
  unfold Account.chargeback
  split <;> rfl

theorem handle_deposit_locked_mono (s : TransactionProcessor) (r : TransactionInput)
    (c : Nat) (a : Account) (hc : alookup s.accounts c = some a) (hl : a.locked = true) :
    Option.map Account.locked (alookup (handle_deposit s r).accounts c) = some true := by
  by_cases hcr : c = r.client
  · subst hcr
    have hsome : alookup (getOrCreateA s.accounts r.client) r.client = some a :=
      alookup_getOrCreateA_of_some _ _ _ _ hc
    simp only [handle_deposit]
    split
    · simp [hc, hl]
    · split
      · simp [hc, hl]
      · split
        · simp [hc, hl]
        · rename_i account hacc
          have haeq : account = a := by
            rw [hsome] at hacc
            injection hacc with h1
            exact h1.symm
          split
          · rename_i account1 hdep
            obtain ⟨hlk, -⟩ := Account.deposit_true hdep
            rw [haeq, hl] at hlk
            cases hlk
          · simp [hsome, hl]
  · rw [handle_deposit_accounts_other _ _ _ hcr]
    simp [hc, hl]

theorem handle_withdrawal_locked_mono (s : TransactionProcessor) (r : TransactionInput)
    (c : Nat) (a : Account) (hc : alookup s.accounts c = some a) (hl : a.locked = true) :
    Option.map Account.locked (alookup (handle_withdrawal s r).accounts c) = some true := by
  by_cases hcr : c = r.client
  · subst hcr
    have hsome : alookup (getOrCreateA s.accounts r.client) r.client = some a :=
      alookup_getOrCreateA_of_some _ _ _ _ hc
    simp only [handle_withdrawal]
    split
    · simp [hc, hl]
    · split
      · simp [hc, hl]
      · split
        · simp [hc, hl]
        · rename_i account hacc
          have haeq : account = a := by
            rw [hsome] at hacc
            injection hacc with h1
            exact h1.symm
          split
          · rename_i account1 hwd
            obtain ⟨hlk, -, -⟩ := Account.withdraw_true hwd
            rw [haeq, hl] at hlk
            cases hlk
          · simp [hsome, hl]
  · rw [handle_withdrawal_accounts_other _ _ _ hcr]
    simp [hc, hl]

theorem handle_dispute_locked_mono (s : TransactionProcessor) (r : TransactionInput)
    (c : Nat) (a : Account) (hc : alookup s.accounts c = some a) (hl : a.locked = true) :
    Option.map Account.locked (alookup (handle_dispute s r).accounts c) = some true := by
  by_cases hcr : c = r.client
  · subst hcr
    simp only [handle_dispute]
    split
    · simp [hc, hl]
    · split
      · simp [hc, hl]
      · split
        · simp [hc, hl]
        · split
          · simp [hc, hl]
          · split
            · simp [hc, hl]
            · rename_i account hacc
              have haeq : account = a := by
                rw [hc] at hacc
                injection hacc with h1
                exact h1.symm
              split
              · rename_i account1 hop
                obtain ⟨-, haccount1⟩ := Account.hold_funds_true hop
                have hlock1 : account1.locked = true := by
                  rw [haccount1, haeq]
                  exact hl
                simp [alookup_aset, hlock1]
              · simp [hc, hl]
  · rw [handle_dispute_accounts_other _ _ _ hcr]
    simp [hc, hl]

theorem handle_resolve_locked_mono (s : TransactionProcessor) (r : TransactionInput)
    (c : Nat) (a : Account) (hc : alookup s.accounts c = some a) (hl : a.locked = true) :
    Option.map Account.locked (alookup (handle_resolve s r).accounts c) = some true := by
  by_cases hcr : c = r.client
  · subst hcr
    simp only [handle_resolve]
    split
    · simp [hc, hl]
    · split
      · simp [hc, hl]
      · split
        · simp [hc, hl]
        · split
          · simp [hc, hl]
          · rename_i account hacc
            have haeq : account = a := by
              rw [hc] at hacc
              injection hacc with h1
              exact h1.symm
            split
            · rename_i account1 hop
              obtain ⟨-, haccount1⟩ := Account.release_funds_true hop
              have hlock1 : account1.locked = true := by
                rw [haccount1, haeq]
                exact hl
              simp [alookup_aset, hlock1]
            · simp [hc, hl]
  · rw [handle_resolve_accounts_other _ _ _ hcr]
    simp [hc, hl]

theorem handle_chargeback_locked_mono (s : TransactionProcessor) (r : TransactionInput)
    (c : Nat) (a : Account) (hc : alookup s.accounts c = some a) (hl : a.locked = true) :
    Option.map Account.locked (alookup (handle_chargeback s r).accounts c) = some true := by
  by_cases hcr : c = r.client
  · subst hcr
    simp only [handle_chargeback]
    split
    · simp [hc, hl]
    · split
      · simp [hc, hl]
      · split
        · simp [hc, hl]
        · split
          · simp [hc, hl]
          · rename_i account hacc
            have haeq : account = a := by
              rw [hc] at hacc
              injection hacc with h1
              exact h1.symm
            split
            · rename_i account1 hop
              obtain ⟨-, haccount1⟩ := Account.chargeback_true hop
              have hlock1 : account1.locked = true := by
                rw [haccount1]
              simp [alookup_aset, hlock1]
            · simp [hc, hl]
  · rw [handle_chargeback_accounts_other _ _ _ hcr]
    simp [hc, hl]

theorem process_transaction_locked_mono (s : TransactionProcessor) (r : TransactionInput)
    (c : Nat) (a : Account) (hc : alookup s.accounts c = some a) (hl : a.locked = true) :
    Option.map Account.locked (alookup (process_transaction s r).accounts c) = some true := by
  have hc1 : alookup (getOrCreateA s.accounts r.client) c = some a :=
    alookup_getOrCreateA_of_some _ _ _ _ hc
  simp only [process_transaction]
  split
  · exact handle_deposit_locked_mono _ _ _ _ hc1 hl
  · exact handle_withdrawal_locked_mono _ _ _ _ hc1 hl
  · exact handle_dispute_locked_mono _ _ _ _ hc1 hl
  · exact handle_resolve_locked_mono _ _ _ _ hc1 hl
  · exact handle_chargeback_locked_mono _ _ _ _ hc1 hl

/-! ## Rendering lemmas -/

theorem Decimal.digitChar_ne_dot (d : Nat) (h : d < 10) : Decimal.digitChar d ≠ '.' := by
  interval_cases d <;> decide

theorem Decimal.natCharsAux_ne_dot (fuel : Nat) :
    ∀ n c, c ∈ Decimal.natCharsAux fuel n → c ≠ '.' := by
  induction fuel with
  | zero =>
    intro n c hc
    simp [Decimal.natCharsAux] at hc
  | succ fuel ih =>
    intro n c hc
    rw [Decimal.natCharsAux] at hc
    split at hc
    · rename_i hlt
      simp at hc
      exact hc ▸ Decimal.digitChar_ne_dot n hlt
    · rw [List.mem_append] at hc
      rcases hc with hc | hc
      · exact ih _ _ hc
      · simp at hc
        exact hc ▸ Decimal.digitChar_ne_dot _ (Nat.mod_lt _ (by norm_num))

theorem Decimal.natChars_ne_dot (n : Nat) : ∀ c ∈ Decimal.natChars n, c ≠ '.' :=
  fun c hc => Decimal.natCharsAux_ne_dot (n + 1) n c hc

theorem Decimal.natCharsAux_length_le (fuel : Nat) :
    ∀ n k, n < fuel → n < 10 ^ k → 1 ≤ k → (Decimal.natCharsAux fuel n).length ≤ k := by
  induction fuel with
  | zero =>
    intro n k hfuel
    omega
  | succ fuel ih =>
    intro n k hfuel hnk hk
    rw [Decimal.natCharsAux]
    split
    · simpa using hk
    · rename_i hge
      have hk2 : 2 ≤ k := by
        rcases Nat.lt_or_ge k 2 with h2 | h2
        · have hk1 : k = 1 := by omega
          subst hk1
          simp at hnk
          omega
        · exact h2
      have hdiv : n / 10 < 10 ^ (k - 1) := by
        rw [Nat.div_lt_iff_lt_mul (by norm_num)]
        calc n < 10 ^ k := hnk
        _ = 10 ^ (k - 1) * 10 := by
          conv_lhs => rw [show k = (k - 1) + 1 by omega]
          ring
      have hfuel2 : n / 10 < fuel := by
        have := Nat.div_lt_self (show 0 < n by omega) (show 1 < 10 by norm_num)
        omega
      have hrec := ih (n / 10) (k - 1) hfuel2 hdiv (by omega)
      rw [List.length_append]
      simp only [List.length_singleton]
      omega

theorem Decimal.natChars_length_le (n k : Nat) (h : n < 10 ^ k) (hk : 1 ≤ k) :
    (Decimal.natChars n).length ≤ k :=
  Decimal.natCharsAux_length_le (n + 1) n k (Nat.lt_succ_self n) h hk

theorem takeWhile_all_append (p : Char → Bool) (xs : List Char) (b : Char) (bs : List Char)
    (hall : ∀ x ∈ xs, p x = true) (hb : p b = false) :
    (xs ++ b :: bs).takeWhile p = xs := by
  induction xs with
  | nil => simp [List.takeWhile_cons, hb]
  | cons x rest ih =>
    have hx := hall x (by simp)
    have hrest : ∀ y ∈ rest, p y = true := fun y hy => hall y (by simp [hy])
    simp [List.takeWhile_cons, hx, ih hrest]

theorem fracLen_append_dot (xs ys : List Char) (hys : ∀ c ∈ ys, c ≠ '.') :
    fracLen ⟨xs ++ '.' :: ys⟩ = ys.length := by
  have hmem : '.' ∈ xs ++ '.' :: ys := by simp
  show (if '.' ∈ xs ++ '.' :: ys then
    (((xs ++ '.' :: ys).reverse.takeWhile (fun c => c ≠ '.')).length) else 0) = ys.length
  rw [if_pos hmem, List.reverse_append, List.reverse_cons, List.append_assoc]
  have hrev : ∀ c ∈ ys.reverse, (decide (c ≠ '.')) = true := by
    intro c hc
    simp only [decide_eq_true_iff]
    exact hys c (List.mem_reverse.mp hc)
  rw [show ['.'] ++ xs.reverse = '.' :: xs.reverse from rfl]
  rw [takeWhile_all_append _ _ _ _ hrev (by simp)]
  exact List.length_reverse ys

theorem fracLen_no_dot (l : List Char) (h : '.' ∉ l) : fracLen ⟨l⟩ = 0 := by
  show (if '.' ∈ l then ((l.reverse.takeWhile (fun c => c ≠ '.')).length) else 0) = 0
  rw [if_neg h]

theorem Decimal.round_dp_scale_le (v : Decimal) : (v.round_dp 4).scale ≤ 4 := by
  unfold Decimal.round_dp
  split
  · assumption
  · exact le_refl 4

theorem fracLen_toString_le (d : Decimal) : fracLen (Decimal.toString d) ≤ d.scale := by
  rw [Decimal.toString]
  simp only [Decimal.toChars]
  by_cases hs : d.scale = 0
  · rw [if_pos hs]
    rw [fracLen_no_dot]
    · exact Nat.zero_le _
    · intro hmem
      rw [List.mem_append] at hmem
      rcases hmem with hmem | hmem
      · split at hmem <;> simp at hmem
      · exact Decimal.natChars_ne_dot _ _ hmem rfl
  · rw [if_neg hs]
    have hassoc :
        (if d.mantissa < 0 then ['-'] else []) ++
            Decimal.natChars (d.mantissa.natAbs / 10 ^ d.scale) ++ ['.'] ++
            List.replicate (d.scale - (Decimal.natChars (d.mantissa.natAbs % 10 ^ d.scale)).length)
              '0' ++ Decimal.natChars (d.mantissa.natAbs % 10 ^ d.scale) =
          ((if d.mantissa < 0 then ['-'] else []) ++
              Decimal.natChars (d.mantissa.natAbs / 10 ^ d.scale)) ++ '.' ::
            (List.replicate (d.scale - (Decimal.natChars (d.mantissa.natAbs % 10 ^ d.scale)).length)
              '0' ++ Decimal.natChars (d.mantissa.natAbs % 10 ^ d.scale)) := by
      simp [List.append_assoc]
    rw [hassoc, fracLen_append_dot]
    · have hfp : d.mantissa.natAbs % 10 ^ d.scale < 10 ^ d.scale :=
        Nat.mod_lt _ (Nat.pos_pow_of_pos _ (by norm_num))
      have hL := Decimal.natChars_length_le _ _ hfp (by omega)
      rw [List.length_append, List.length_replicate]
      omega
    · intro c hc
      rw [List.mem_append] at hc
      rcases hc with hc | hc
      · rw [List.mem_replicate] at hc
        rw [hc.2]
        decide
      · exact Decimal.natChars_ne_dot _ _ hc

theorem fracLen_serialize_le (v : Decimal) : fracLen (serialize_decimal v) ≤ 4 :=
  le_trans (fracLen_toString_le _) (Decimal.round_dp_scale_le v)

/-! ## Output snapshot lemmas -/

theorem alookup_pairs {α : Type} (m : List (Nat × α)) (hnd : (m.map Prod.fst).Nodup) :
    ∀ p ∈ m, alookup m p.1 = some p.2 := by
  induction m with
  | nil => simp
  | cons q rest ih =>
    obtain ⟨k, v⟩ := q
    simp only [List.map_cons, List.nodup_cons] at hnd
    intro p hp
    rcases List.mem_cons.mp hp with hp | hp
    · subst hp
      simp [alookup]
    · have hne : p.1 ≠ k := by
        intro hkey
        exact hnd.1 (hkey ▸ List.mem_map_of_mem Prod.fst hp)
      simp only [alookup, if_neg hne]
      exact ih hnd.2 p hp

theorem map_clientId_values (m : List (Nat × Account)) (hnd : (m.map Prod.fst).Nodup)
    (hWF : AccWF m) : (m.map Prod.snd).map Account.client_id = m.map Prod.fst := by
  rw [List.map_map]
  exact List.map_congr_left fun p hp => (hWF p.1 p.2 (alookup_pairs m hnd p hp)).2.2


theorem output_accounts_clients_sorted (s : TransactionProcessor) (h : ProcInv s) :
    List.Sorted (· < ·) ((output_accounts s).map AccountOutput.client) := by
  obtain ⟨hA, -, hN⟩ := h
  unfold output_accounts
  rw [List.map_map]
  have hcomp : (AccountOutput.client ∘ Account.to_output) = Account.client_id := rfl
  rw [hcomp]
  have hsorted :
      List.Sorted (fun a b : Account => a.client_id ≤ b.client_id)
        ((s.accounts.map Prod.snd).insertionSort (fun a b => a.client_id ≤ b.client_id)) :=
    List.sorted_insertionSort _ _
  have hle :
      List.Pairwise (· ≤ ·)
        (((s.accounts.map Prod.snd).insertionSort
          (fun a b => a.client_id ≤ b.client_id)).map Account.client_id) :=
    List.Pairwise.map Account.client_id (fun _ _ hab => hab) hsorted
  have hperm :
      List.Perm
        (((s.accounts.map Prod.snd).insertionSort
          (fun a b => a.client_id ≤ b.client_id)).map Account.client_id)
        ((s.accounts.map Prod.snd).map Account.client_id) :=
    (List.perm_insertionSort _ _).map _
  have hnd :
      (((s.accounts.map Prod.snd).insertionSort
        (fun a b => a.client_id ≤ b.client_id)).map Account.client_id).Nodup := by
    rw [hperm.nodup_iff, map_clientId_values s.accounts hN hA]
    exact hN
  exact (hle.and hnd).imp fun hab => lt_of_le_of_ne hab.1 hab.2

theorem output_accounts_mem_iff (s : TransactionProcessor) (h : ProcInv s) (c : Nat) :
    (alookup s.accounts c).isSome = true ↔ c ∈ (output_accounts s).map AccountOutput.client := by
  obtain ⟨hA, -, hN⟩ := h
  rw [alookup_isSome_iff_mem]
  unfold output_accounts
  rw [List.map_map]
  have hcomp : (AccountOutput.client ∘ Account.to_output) = Account.client_id := rfl
  rw [hcomp]
  have hperm :
      List.Perm
        (((s.accounts.map Prod.snd).insertionSort
          (fun a b => a.client_id ≤ b.client_id)).map Account.client_id)
        ((s.accounts.map Prod.snd).map Account.client_id) :=
    (List.perm_insertionSort _ _).map _
  rw [hperm.mem_iff, map_clientId_values s.accounts hN hA]

theorem output_accounts_row (s : TransactionProcessor) (o : AccountOutput)
    (ho : o ∈ output_accounts s) :
    o.total = o.available.add o.held ∧ fracLen (serialize_decimal o.available) ≤ 4 ∧
      fracLen (serialize_decimal o.held) ≤ 4 ∧ fracLen (serialize_decimal o.total) ≤ 4 := by
  unfold output_accounts at ho
  rw [List.mem_map] at ho
  obtain ⟨a, -, rfl⟩ := ho
  exact ⟨rfl, fracLen_serialize_le _, fracLen_serialize_le _, fracLen_serialize_le _⟩

/-! ## Terminal-state rejection lemmas -/

theorem handle_dispute_of_chargedback (s : TransactionProcessor) (r : TransactionInput)
    (T : Transaction) (htx : alookup s.transactions r.tx = some T)
    (hst : T.state = TransactionState.ChargedBack) : handle_dispute s r = s := by
  simp only [handle_dispute]
  split
  · rfl
  · rename_i txn htxn
    have hTeq : txn = T := by
      rw [htx] at htxn
      injection htxn with h1
      exact h1.symm
    split
    · rfl
    · split
      · rfl
      · split
        · rfl
        · rename_i h1 h2 h3
          rw [hTeq, hst] at h3
          simp at h3

theorem handle_resolve_of_chargedback (s : TransactionProcessor) (r : TransactionInput)
    (T : Transaction) (htx : alookup s.transactions r.tx = some T)
    (hst : T.state = TransactionState.ChargedBack) : handle_resolve s r = s := by
  simp only [handle_resolve]
  split
  · rfl
  · rename_i txn htxn
    have hTeq : txn = T := by
      rw [htx] at htxn
      injection htxn with h1
      exact h1.symm
    split
    · rfl
    · split
      · rfl
      · rename_i h1 h2
        rw [hTeq, hst] at h2
        simp at h2

theorem handle_chargeback_of_chargedback (s : TransactionProcessor) (r : TransactionInput)
    (T : Transaction) (htx : alookup s.transactions r.tx = some T)
    (hst : T.state = TransactionState.ChargedBack) : handle_chargeback s r = s := by
  simp only [handle_chargeback]
  split
  · rfl
  · rename_i txn htxn
    have hTeq : txn = T := by
      rw [htx] at htxn
      injection htxn with h1
      exact h1.symm
    split
    · rfl
    · split
      · rfl
      · rename_i h1 h2
        rw [hTeq, hst] at h2
        simp at h2

/-! ## File-processing composition -/

theorem process_file_append (s : TransactionProcessor) (pre rest : List RawRecord) :
    process_file s (pre ++ rest) =
      match process_file s pre with
      | Except.ok s1 => process_file s1 rest
      | Except.error e => Except.error e := by
  induction pre generalizing s with
  | nil => rfl
  | cons r pre ih =>
    show process_file s (r :: (pre ++ rest)) = _
    simp only [process_file]
    cases deserialize_optional_amount r.amount with
    | error e => rfl
    | ok amt => exact ih _

theorem getOrCreateA_idem (m : List (Nat × Account)) (k : Nat) :
    getOrCreateA (getOrCreateA m k) k = getOrCreateA m k := by
  conv_lhs => rw [getOrCreateA]
  rw [alookup_getOrCreateA_self]

/-! ## Claim theorems -/

/-- Claim C1: for every sequence of input records and every account in the
Account Store, at every point between records (every prefix being such a
sequence) the account satisfies `available ≥ 0` and `held ≥ 0`: the deposit and
withdrawal handlers reject non-positive amounts, `withdraw` and `hold_funds`
reject when `available < amount`, and `release_funds`/`chargeback` reject when
`held < amount`, so no handler drives either balance negative. -/
theorem claim_C1_balances_nonneg (records : List TransactionInput) (c : Nat) (a : Account)
    (h : alookup (process_all TransactionProcessor.new records).accounts c = some a) :
    0 ≤ a.available.toRat ∧ 0 ≤ a.held.toRat :=
  ⟨((ProcInv_reachable records).1 c a h).1, ((ProcInv_reachable records).1 c a h).2.1⟩

/-- Witness for C1 at a concrete one-deposit run. -/
theorem claim_C1_balances_nonneg_witness :
    0 ≤ exC1acc.available.toRat ∧ 0 ≤ exC1acc.held.toRat :=
  claim_C1_balances_nonneg exC1rs 1 exC1acc (by decide)

/-- Claim C9: in every reachable processor state, every Transaction Ledger
entry was inserted by an accepted deposit: its type is `Deposit` and its
amount is strictly positive (hence the dispute handler's non-deposit branch is
dead and resolve/chargeback need no type check). -/
theorem claim_C9_ledger_only_deposits (records : List TransactionInput) (t : Nat)
    (txn : Transaction)
    (h : alookup (process_all TransactionProcessor.new records).transactions t = some txn) :
    txn.transaction_type = TransactionType.Deposit ∧ 0 < txn.amount.toRat :=
  ⟨((ProcInv_reachable records).2.1 t txn h).1, ((ProcInv_reachable records).2.1 t txn h).2.1⟩

/-- Witness for C9 at a concrete one-deposit run. -/
theorem claim_C9_ledger_only_deposits_witness :
    exC9txn.transaction_type = TransactionType.Deposit ∧ 0 < exC9txn.amount.toRat :=
  claim_C9_ledger_only_deposits exC9rs 8 exC9txn (by decide)

/-- Claim C6: the locked flag never reverts to false: `deposit`, `withdraw`,
`hold_funds` and `release_funds` never change it, a failed `chargeback` leaves
it unchanged, a successful `chargeback` (the only lock-setting operation) sets
it, and a locked account stays locked across any processed record and any
record sequence. -/
theorem claim_C6_lock_monotone :
    (∀ (a : Account) (m : Decimal), ((a.deposit m).2).locked = a.locked) ∧
    (∀ (a : Account) (m : Decimal), ((a.withdraw m).2).locked = a.locked) ∧
    (∀ (a : Account) (m : Decimal), ((a.hold_funds m).2).locked = a.locked) ∧
    (∀ (a : Account) (m : Decimal), ((a.release_funds m).2).locked = a.locked) ∧
    (∀ (a : Account) (m : Decimal),
      (a.chargeback m).1 = false → ((a.chargeback m).2).locked = a.locked) ∧
    (∀ (a : Account) (m : Decimal),
      (a.chargeback m).1 = true → ((a.chargeback m).2).locked = true) ∧
    (∀ (s : TransactionProcessor) (records : List TransactionInput) (c : Nat) (a : Account),
      alookup s.accounts c = some a → a.locked = true →
      Option.map Account.locked (alookup (process_all s records).accounts c) = some true) := by
  refine ⟨Account.deposit_locked, Account.withdraw_locked, Account.hold_funds_locked,
    Account.release_funds_locked, ?_, ?_, ?_⟩
  · intro a m hfail
    rw [Account.chargeback_locked, hfail]
    rfl
  · intro a m hok
    rw [Account.chargeback_locked, hok]
    rfl
  · intro s records
    induction records generalizing s with
    | nil =>
      intro c a hc hl
      show Option.map Account.locked (alookup s.accounts c) = some true
      rw [hc]
      simp [hl]
    | cons r rest ih =>
      intro c a hc hl
      have hstep := process_transaction_locked_mono s r c a hc hl
      cases hnext : alookup (process_transaction s r).accounts c with
      | none =>
        rw [hnext] at hstep
        cases hstep
      | some a1 =>
        rw [hnext] at hstep
        have hl1 : a1.locked = true := by
          injection hstep with h1
        exact ih (process_transaction s r) c a1 hnext hl1

/-- Witness for C6: a locked account stays locked across a concrete deposit
attempt. -/
theorem claim_C6_lock_monotone_witness :
    Option.map Account.locked (alookup (process_all exC6s [exC6r]).accounts 1) = some true :=
  claim_C6_lock_monotone.2.2.2.2.2.2 exC6s [exC6r] 1 exC6acc (by decide) (by decide)

/-- Claim C10: `hold_funds` and `release_funds` leave `available + held` (the
reported total) unchanged whether they succeed or fail; for positive amounts,
only a successful `deposit` increases the total and only successful `withdraw`
and `chargeback` decrease it, every failing operation leaving it unchanged. -/
theorem claim_C10_total_conservation (a : Account) (m : Decimal) :
    (((a.hold_funds m).2).available.toRat + ((a.hold_funds m).2).held.toRat =
      a.available.toRat + a.held.toRat) ∧
    (((a.release_funds m).2).available.toRat + ((a.release_funds m).2).held.toRat =
      a.available.toRat + a.held.toRat) ∧
    (0 < m.toRat →
      ((a.deposit m).1 = true →
        a.available.toRat + a.held.toRat <
          ((a.deposit m).2).available.toRat + ((a.deposit m).2).held.toRat) ∧
      ((a.deposit m).1 = false →
        ((a.deposit m).2).available.toRat + ((a.deposit m).2).held.toRat =
          a.available.toRat + a.held.toRat) ∧
      ((a.withdraw m).1 = true →
        ((a.withdraw m).2).available.toRat + ((a.withdraw m).2).held.toRat <
          a.available.toRat + a.held.toRat) ∧
      ((a.withdraw m).1 = false →
        ((a.withdraw m).2).available.toRat + ((a.withdraw m).2).held.toRat =
          a.available.toRat + a.held.toRat) ∧
      ((a.chargeback m).1 = true →
        ((a.chargeback m).2).available.toRat + ((a.chargeback m).2).held.toRat <
          a.available.toRat + a.held.toRat) ∧
      ((a.chargeback m).1 = false →
        ((a.chargeback m).2).available.toRat + ((a.chargeback m).2).held.toRat =
          a.available.toRat + a.held.toRat)) := by
  refine ⟨?_, ?_, fun hm => ⟨?_, ?_, ?_, ?_, ?_, ?_⟩⟩
  · unfold Account.hold_funds
    split
    · rfl
    · show (a.available.sub m).toRat + (a.held.add m).toRat = _
      rw [Decimal.toRat_sub, Decimal.toRat_add]
      ring
  · unfold Account.release_funds
    split
    · rfl
    · show (a.available.add m).toRat + (a.held.sub m).toRat = _
      rw [Decimal.toRat_add, Decimal.toRat_sub]
      ring
  · unfold Account.deposit
    split
    · intro h
      cases h
    · intro _h
      show _ < (a.available.add m).toRat + a.held.toRat
      rw [Decimal.toRat_add]
      linarith
  · unfold Account.deposit
    split
    · intro _h
      rfl
    · intro h
      cases h
  · unfold Account.withdraw
    split
    · intro h
      cases h
    · intro _h
      show (a.available.sub m).toRat + a.held.toRat < _
      rw [Decimal.toRat_sub]
      linarith
  · unfold Account.withdraw
    split
    · intro _h
      rfl
    · intro h
      cases h
  · unfold Account.chargeback
    split
    · intro h
      cases h
    · intro _h
      show a.available.toRat + (a.held.sub m).toRat < _
      rw [Decimal.toRat_sub]
      linarith
  · unfold Account.chargeback
    split
    · intro _h
      rfl
    · intro h
      cases h

/-- Witness for C10 at a concrete unlocked account and positive amount. -/
theorem claim_C10_total_conservation_witness :
    (((exC10a.hold_funds exC10m).2).available.toRat +
        ((exC10a.hold_funds exC10m).2).held.toRat =
      exC10a.available.toRat + exC10a.held.toRat) ∧
    (exC10a.available.toRat + exC10a.held.toRat <
      ((exC10a.deposit exC10m).2).available.toRat + ((exC10a.deposit exC10m).2).held.toRat) :=
  ⟨(claim_C10_total_conservation exC10a exC10m).1,
   ((claim_C10_total_conservation exC10a exC10m).2.2 (by decide)).1 (by decide)⟩

theorem handle_withdrawal_transactions (s : TransactionProcessor) (r : TransactionInput) :
    (handle_withdrawal s r).transactions = s.transactions := by
  simp only [handle_withdrawal]
  split
  · rfl
  · split
    · rfl
    · split
      · rfl
      · split <;> rfl

theorem handle_deposit_transactions (s : TransactionProcessor) (r : TransactionInput) :
    (handle_deposit s r).transactions = s.transactions ∨
    (∃ v, r.amount = some v ∧ (handle_deposit s r).transactions =
      aset s.transactions r.tx (Transaction.new r.tx r.client r.transaction_type v)) := by
  simp only [handle_deposit]
  split
  · exact Or.inl rfl
  · rename_i v hv
    split
    · exact Or.inl rfl
    · split
      · exact Or.inl rfl
      · split
        · exact Or.inr ⟨v, hv, rfl⟩
        · exact Or.inl rfl

theorem handle_dispute_transactions (s : TransactionProcessor) (r : TransactionInput) :
    (handle_dispute s r).transactions = s.transactions ∨
    (∃ txn, alookup s.transactions r.tx = some txn ∧
      txn.state = TransactionState.Normal ∧
      (handle_dispute s r).transactions =
        aset s.transactions r.tx { txn with state := TransactionState.UnderDispute }) := by
  simp only [handle_dispute]
  split
  · exact Or.inl rfl
  · rename_i txn htxn
    split
    · exact Or.inl rfl
    · split
      · exact Or.inl rfl
      · split
        · exact Or.inl rfl
        · rename_i h3
          split
          · exact Or.inl rfl
          · split
            · exact Or.inr ⟨txn, htxn, not_not.mp h3, rfl⟩
            · exact Or.inl rfl

theorem handle_resolve_transactions (s : TransactionProcessor) (r : TransactionInput) :
    (handle_resolve s r).transactions = s.transactions ∨
    (∃ txn, alookup s.transactions r.tx = some txn ∧
      txn.state = TransactionState.UnderDispute ∧
      (handle_resolve s r).transactions =
        aset s.transactions r.tx { txn with state := TransactionState.Normal }) := by
  simp only [handle_resolve]
  split
  · exact Or.inl rfl
  · rename_i txn htxn
    split
    · exact Or.inl rfl
    · split
      · exact Or.inl rfl
      · rename_i h2
        split
        · exact Or.inl rfl
        · split
          · exact Or.inr ⟨txn, htxn, not_not.mp h2, rfl⟩
          · exact Or.inl rfl

theorem handle_chargeback_transactions (s : TransactionProcessor) (r : TransactionInput) :
    (handle_chargeback s r).transactions = s.transactions ∨
    (∃ txn, alookup s.transactions r.tx = some txn ∧
      txn.state = TransactionState.UnderDispute ∧
      (handle_chargeback s r).transactions =
        aset s.transactions r.tx { txn with state := TransactionState.ChargedBack }) := by
  simp only [handle_chargeback]
  split
  · exact Or.inl rfl
  · rename_i txn htxn
    split
    · exact Or.inl rfl
    · split
      · exact Or.inl rfl
      · rename_i h2
        split
        · exact Or.inl rfl
        · split
          · exact Or.inr ⟨txn, htxn, not_not.mp h2, rfl⟩
          · exact Or.inl rfl

/-- Claim C2 counterexample: after deposit/dispute/chargeback on tx 1 the
ledger entry is ChargedBack, yet two later records (a deposit by another
client reusing tx id 1, then a dispute of it) leave the entry UnderDispute and
move that client's balance to held — so the entry's state did change after
ChargedBack and a later dispute referencing the id succeeded. -/
theorem claim_C2_counterexample :
    (alookup (process_all TransactionProcessor.new exC2pre).transactions 1).map
        Transaction.state = some TransactionState.ChargedBack ∧
    (alookup (process_all TransactionProcessor.new exC2full).transactions 1).map
        Transaction.state = some TransactionState.UnderDispute ∧
    (alookup (process_all TransactionProcessor.new exC2full).accounts 2).map
        (fun a => (a.available.toRat, a.held.toRat)) = some (0, 5) := by
  decide

/-- Claim C2 (amended): the stored state under a transaction id moves only
along Normal → UnderDispute → {Normal, ChargedBack}: any record leaves an
entry unchanged, advances a Normal entry to UnderDispute (dispute), returns an
UnderDispute entry to Normal (resolve), advances an UnderDispute entry to
ChargedBack (chargeback), or — the one exception — is an accepted deposit
reusing the id, which overwrites the entry with a fresh Normal entry (new
owner and amount).  A ChargedBack entry is terminal for the dispute
operations: every later dispute, resolve or chargeback referencing that id is
rejected, leaving the whole ledger and every existing account entry
unchanged. -/
theorem claim_C2_state_machine :
    (∀ (s : TransactionProcessor) (r : TransactionInput) (t : Nat) (T T1 : Transaction),
      alookup s.transactions t = some T →
      alookup (process_transaction s r).transactions t = some T1 →
      T1 = T ∨
      (T.state = TransactionState.Normal ∧
        T1 = { T with state := TransactionState.UnderDispute }) ∨
      (T.state = TransactionState.UnderDispute ∧
        T1 = { T with state := TransactionState.Normal }) ∨
      (T.state = TransactionState.UnderDispute ∧
        T1 = { T with state := TransactionState.ChargedBack }) ∨
      (r.transaction_type = TransactionType.Deposit ∧ t = r.tx ∧
        T1.state = TransactionState.Normal ∧ T1.client_id = r.client ∧
        T1.tx_id = r.tx ∧ T1.transaction_type = TransactionType.Deposit)) ∧
    (∀ (s : TransactionProcessor) (r : TransactionInput) (T : Transaction),
      alookup s.transactions r.tx = some T →
      T.state = TransactionState.ChargedBack →
      (r.transaction_type = TransactionType.Dispute ∨
        r.transaction_type = TransactionType.Resolve ∨
        r.transaction_type = TransactionType.Chargeback) →
      (process_transaction s r).transactions = s.transactions ∧
      (∀ c a, alookup s.accounts c = some a →
        alookup (process_transaction s r).accounts c = some a)) := by
  constructor
  · intro s r t T T1 hT hT1
    cases hty : r.transaction_type with
    | Deposit =>
      simp only [process_transaction, hty] at hT1
      rcases handle_deposit_transactions
          { s with accounts := getOrCreateA s.accounts r.client } r with heq | ⟨v, hv, heq⟩
      · rw [heq] at hT1
        injection hT1.symm.trans hT with h
        exact Or.inl h
      · rw [heq, alookup_aset] at hT1
        by_cases htx : t = r.tx
        · rw [if_pos htx] at hT1
          injection hT1 with h
          refine Or.inr (Or.inr (Or.inr (Or.inr ⟨rfl, htx, ?_, ?_, ?_, ?_⟩)))
          · rw [← h]
            rfl
          · rw [← h]
            rfl
          · rw [← h]
            rfl
          · rw [← h]
            exact hty
        · rw [if_neg htx] at hT1
          injection hT1.symm.trans hT with h
          exact Or.inl h
    | Withdrawal =>
      simp only [process_transaction, hty] at hT1
      rw [handle_withdrawal_transactions] at hT1
      injection hT1.symm.trans hT with h
      exact Or.inl h
    | Dispute =>
      simp only [process_transaction, hty] at hT1
      rcases handle_dispute_transactions
          { s with accounts := getOrCreateA s.accounts r.client } r with
        heq | ⟨txn, htxn, hst, heq⟩
      · rw [heq] at hT1
        injection hT1.symm.trans hT with h
        exact Or.inl h
      · rw [heq, alookup_aset] at hT1
        by_cases htx : t = r.tx
        · subst htx
          rw [if_pos rfl] at hT1
          injection hT1 with h
          have hTeq : txn = T := by
            injection htxn.symm.trans hT with hh
          subst hTeq
          exact Or.inr (Or.inl ⟨hst, h.symm⟩)
        · rw [if_neg htx] at hT1
          injection hT1.symm.trans hT with h
          exact Or.inl h
    | Resolve =>
      simp only [process_transaction, hty] at hT1
      rcases handle_resolve_transactions
          { s with accounts := getOrCreateA s.accounts r.client } r with
        heq | ⟨txn, htxn, hst, heq⟩
      · rw [heq] at hT1
        injection hT1.symm.trans hT with h
        exact Or.inl h
      · rw [heq, alookup_aset] at hT1
        by_cases htx : t = r.tx
        · subst htx
          rw [if_pos rfl] at hT1
          injection hT1 with h
          have hTeq : txn = T := by
            injection htxn.symm.trans hT with hh
          subst hTeq
          exact Or.inr (Or.inr (Or.inl ⟨hst, h.symm⟩))
        · rw [if_neg htx] at hT1
          injection hT1.symm.trans hT with h
          exact Or.inl h
    | Chargeback =>
      simp only [process_transaction, hty] at hT1
      rcases handle_chargeback_transactions
          { s with accounts := getOrCreateA s.accounts r.client } r with
        heq | ⟨txn, htxn, hst, heq⟩
      · rw [heq] at hT1
        injection hT1.symm.trans hT with h
        exact Or.inl h
      · rw [heq, alookup_aset] at hT1
        by_cases htx : t = r.tx
        · subst htx
          rw [if_pos rfl] at hT1
          injection hT1 with h
          have hTeq : txn = T := by
            injection htxn.symm.trans hT with hh
          subst hTeq
          exact Or.inr (Or.inr (Or.inr (Or.inl ⟨hst, h.symm⟩)))
        · rw [if_neg htx] at hT1
          injection hT1.symm.trans hT with h
          exact Or.inl h
  · intro s r T htx hst hty
    have key : process_transaction s r =
        { s with accounts := getOrCreateA s.accounts r.client } := by
      rcases hty with h | h | h
      · simp only [process_transaction, h]
        exact handle_dispute_of_chargedback _ _ T htx hst
      · simp only [process_transaction, h]
        exact handle_resolve_of_chargedback _ _ T htx hst
      · simp only [process_transaction, h]
        exact handle_chargeback_of_chargedback _ _ T htx hst
    rw [key]
    exact ⟨rfl, fun c a hc => alookup_getOrCreateA_of_some _ _ _ _ hc⟩

/-- Witness for the amended C2: a concrete successful dispute takes the
Normal entry to UnderDispute along an allowed transition, and a dispute
against a concrete ChargedBack entry changes nothing. -/
theorem claim_C2_state_machine_witness :
    (exC2Tnew = exC2Told ∨
      (exC2Told.state = TransactionState.Normal ∧
        exC2Tnew = { exC2Told with state := TransactionState.UnderDispute }) ∨
      (exC2Told.state = TransactionState.UnderDispute ∧
        exC2Tnew = { exC2Told with state := TransactionState.Normal }) ∨
      (exC2Told.state = TransactionState.UnderDispute ∧
        exC2Tnew = { exC2Told with state := TransactionState.ChargedBack }) ∨
      (exC4r.transaction_type = TransactionType.Deposit ∧ 7 = exC4r.tx ∧
        exC2Tnew.state = TransactionState.Normal ∧ exC2Tnew.client_id = exC4r.client ∧
        exC2Tnew.tx_id = exC4r.tx ∧
        exC2Tnew.transaction_type = TransactionType.Deposit)) ∧
    ((process_transaction exC2s exC2r).transactions = exC2s.transactions ∧
      alookup (process_transaction exC2s exC2r).accounts 1 = some exC2acc) :=
  ⟨claim_C2_state_machine.1 exC4s exC4r 7 exC2Told exC2Tnew (by decide) (by decide),
   ⟨(claim_C2_state_machine.2 exC2s exC2r exC2txn (by decide) (by decide) (Or.inl rfl)).1,
    (claim_C2_state_machine.2 exC2s exC2r exC2txn (by decide) (by decide)
      (Or.inl rfl)).2 1 exC2acc (by decide)⟩⟩

/-- Claim C3 counterexample: a dispute referencing a transaction id that is
not in the ledger is rejected, yet it still creates an account for the
record's client (the engine get-or-creates the account for its ordering lock
before dispatch), and that account appears in the output snapshot. -/
theorem claim_C3_counterexample :
    alookup TransactionProcessor.new.accounts 1 = none ∧
    alookup TransactionProcessor.new.transactions 99 = none ∧
    alookup (process_transaction TransactionProcessor.new exC3r).accounts 1 =
      some (Account.new 1) ∧
    output_accounts (process_transaction TransactionProcessor.new exC3r) =
      [Account.to_output (Account.new 1)] := by
  decide

/-- Claim C3 (amended): an account for a client id is created exactly by the
first record naming that client, whatever its type and whether or not it is
rejected — in particular a rejected dispute/resolve/chargeback still creates
an account for the record's client — and no record creates or alters an
account of any other client. -/
theorem claim_C3_account_creation (s : TransactionProcessor) (r : TransactionInput) :
    (alookup (process_transaction s r).accounts r.client).isSome = true ∧
    (∀ c, c ≠ r.client →
      alookup (process_transaction s r).accounts c = alookup s.accounts c) :=
  ⟨process_transaction_accounts_isSome s r,
   fun c hc => process_transaction_accounts_other s r c hc⟩

/-- Witness for the amended C3 at a concrete rejected dispute. -/
theorem claim_C3_account_creation_witness :
    (alookup (process_transaction TransactionProcessor.new exC3r).accounts
      exC3r.client).isSome = true ∧
    alookup (process_transaction TransactionProcessor.new exC3r).accounts 5 =
      alookup TransactionProcessor.new.accounts 5 :=
  ⟨(claim_C3_account_creation TransactionProcessor.new exC3r).1,
   (claim_C3_account_creation TransactionProcessor.new exC3r).2 5 (by decide)⟩

/-- Claim C4: a dispute record succeeds exactly when the referenced
transaction exists, belongs to the record's client, is a deposit, is in state
Normal, and the account's available balance is at least the amount
(`available.lt amount = false`, i.e. `amount ≤ available`); the locked flag is
nowhere consulted, so disputes on locked accounts are honored.  On success
exactly the amount moves from available to held and the state advances to
UnderDispute; on any failed check the balances and the transaction state are
unchanged (only the account-creating get-or-create has run). -/
theorem claim_C4_dispute_characterization (s : TransactionProcessor) (r : TransactionInput)
    (ht : r.transaction_type = TransactionType.Dispute) :
    process_transaction s r =
      match alookup s.transactions r.tx, alookup (getOrCreateA s.accounts r.client) r.client with
      | some txn, some account =>
        if txn.client_id = r.client ∧ txn.transaction_type = TransactionType.Deposit ∧
            txn.state = TransactionState.Normal ∧ account.available.lt txn.amount = false then
          ⟨aset (getOrCreateA s.accounts r.client) r.client
              { account with available := account.available.sub txn.amount, held := account.held.add txn.amount },
            aset s.transactions r.tx { txn with state := TransactionState.UnderDispute }⟩
        else ⟨getOrCreateA s.accounts r.client, s.transactions⟩
      | _, _ => ⟨getOrCreateA s.accounts r.client, s.transactions⟩ := by
  simp only [process_transaction, ht]
  rcases htx : alookup s.transactions r.tx with _ | txn
  · simp only [handle_dispute, htx]
  · rcases hacc : alookup (getOrCreateA s.accounts r.client) r.client with _ | account
    · simp only [handle_dispute, htx, hacc]
      split_ifs <;> rfl
    · by_cases hlt : account.available.lt txn.amount = true
    --
      · have hopf : account.hold_funds txn.amount = (false, account) := by
          unfold Account.hold_funds
          rw [if_pos hlt]
        have hltf : ¬account.available.lt txn.amount = false := by
          rw [hlt]
          simp
        by_cases h1 : txn.client_id = r.client <;>
          by_cases h2 : txn.transaction_type = TransactionType.Deposit <;>
          by_cases h3 : txn.state = TransactionState.Normal <;>
          simp [handle_dispute, htx, hacc, h1, h2, h3, hopf, hltf]
      · have hltf : account.available.lt txn.amount = false := by
          revert hlt
          cases account.available.lt txn.amount <;> simp
        have hopt : account.hold_funds txn.amount =
            (true, { account with available := account.available.sub txn.amount, held := account.held.add txn.amount }) := by
          unfold Account.hold_funds
          rw [if_neg (by rw [hltf]; simp)]
        by_cases h1 : txn.client_id = r.client <;>
          by_cases h2 : txn.transaction_type = TransactionType.Deposit <;>
          by_cases h3 : txn.state = TransactionState.Normal <;>
          simp [handle_dispute, htx, hacc, h1, h2, h3, hopt, hltf]

/-- Witness for C4: a dispute on a locked account with sufficient available
funds succeeds, moving the amount to held and marking the entry UnderDispute. -/
theorem claim_C4_dispute_characterization_witness :
    process_transaction exC4s exC4r =
      ⟨[(1, ⟨1, ⟨2, 0⟩, ⟨3, 0⟩, true⟩)],
        [(7, ⟨7, 1, TransactionType.Deposit, ⟨3, 0⟩, TransactionState.UnderDispute⟩)]⟩ := by
  rw [claim_C4_dispute_characterization exC4s exC4r rfl]
  decide

/-- Claim C5: an accepted deposit (positive amount, account not locked) whose
tx id already has a ledger entry is not rejected for the duplicate id: the
stored Transaction under that id is overwritten by a fresh entry carrying the
record's client, the record's amount and state Normal, whatever the previous
entry's state or owner was. -/
theorem claim_C5_duplicate_deposit_overwrites (s : TransactionProcessor)
    (r : TransactionInput) (v : Decimal) (told : Transaction)
    (ht : r.transaction_type = TransactionType.Deposit)
    (hamt : r.amount = some v)
    (hpos : v.le Decimal.ZERO = false)
    (hnl : (alookup (getOrCreateA s.accounts r.client) r.client).all
      (fun a => !a.locked) = true)
    (_hdup : alookup s.transactions r.tx = some told) :
    alookup (process_transaction s r).transactions r.tx =
      some (Transaction.new r.tx r.client TransactionType.Deposit v) := by
  simp only [process_transaction, ht]
  simp only [handle_deposit, hamt, hpos]
  rcases hacc : alookup (getOrCreateA s.accounts r.client) r.client with _ | account
  · rw [alookup_getOrCreateA_self] at hacc
    cases hacc
  · rw [hacc] at hnl
    simp only [Option.all, Bool.not_eq_true'] at hnl
    have hrep : getOrCreateA (getOrCreateA s.accounts r.client) r.client =
        getOrCreateA s.accounts r.client := getOrCreateA_idem s.accounts r.client
    have hdep : account.deposit v =
        (true, { account with available := account.available.add v }) := by
      unfold Account.deposit
      rw [hnl]
      simp
    simp only [hrep, hacc, hdep, ht]
    simp [alookup_aset]

/-- Witness for C5: a deposit reusing the tx id of another client's
ChargedBack entry overwrites it with a fresh Normal entry. -/
theorem claim_C5_duplicate_deposit_overwrites_witness :
    alookup (process_transaction exC5s exC5r).transactions 7 =
      some (Transaction.new 7 1 TransactionType.Deposit ⟨4, 0⟩) :=
  claim_C5_duplicate_deposit_overwrites exC5s exC5r ⟨4, 0⟩ exC5told rfl rfl
    (by decide) (by decide) (by decide)

/-- Claim C7 counterexample: the rendered amounts are not padded to 4
fractional digits — a run holding the integral balance 1 renders it as the
string `1`, which has 0 fractional digits, not 4. -/
theorem claim_C7_counterexample :
    output_accounts (process_all TransactionProcessor.new [exC7r]) = [exC7row] ∧
    serialize_decimal exC7row.available = "1" ∧
    fracLen "1" = 0 := by
  decide

/-- Claim C7 (amended): the snapshot has exactly one row per known client (a
client id appears among the rows exactly when its account exists, and the row
client ids are strictly increasing), each row's total equals
available + held exactly, and every amount is rendered rounded to at most 4
fractional digits (trailing zeros are not padded). -/
theorem claim_C7_output_snapshot (records : List TransactionInput) :
    List.Sorted (· < ·)
      ((output_accounts (process_all TransactionProcessor.new records)).map
        AccountOutput.client) ∧
    (∀ c, (alookup (process_all TransactionProcessor.new records).accounts c).isSome = true ↔
      c ∈ (output_accounts (process_all TransactionProcessor.new records)).map
        AccountOutput.client) ∧
    (∀ o ∈ output_accounts (process_all TransactionProcessor.new records),
      o.total = o.available.add o.held ∧
      fracLen (serialize_decimal o.available) ≤ 4 ∧
      fracLen (serialize_decimal o.held) ≤ 4 ∧
      fracLen (serialize_decimal o.total) ≤ 4) :=
  ⟨output_accounts_clients_sorted _ (ProcInv_reachable records),
   fun c => output_accounts_mem_iff _ (ProcInv_reachable records) c,
   fun o ho => output_accounts_row _ o ho⟩

/-- Witness for the amended C7 at a concrete one-deposit run. -/
theorem claim_C7_output_snapshot_witness :
    List.Sorted (· < ·)
      ((output_accounts (process_all TransactionProcessor.new [exC7r])).map
        AccountOutput.client) ∧
    (exC7row.total = exC7row.available.add exC7row.held ∧
      fracLen (serialize_decimal exC7row.available) ≤ 4 ∧
      fracLen (serialize_decimal exC7row.held) ≤ 4 ∧
      fracLen (serialize_decimal exC7row.total) ≤ 4) :=
  ⟨(claim_C7_output_snapshot [exC7r]).1,
   (claim_C7_output_snapshot [exC7r]).2.2 exC7row (by decide)⟩

/-- Claim C8 counterexample: a deposit row whose amount parses to 0 is skipped
as a business rejection and processing continues, but it is not true that no
account state changes: an account entry for the record's client is created
(and would appear in the output snapshot). -/
theorem claim_C8_counterexample :
    process_file TransactionProcessor.new [exC8zeroRow] = Except.ok exC8state ∧
    exC8state.accounts ≠ TransactionProcessor.new.accounts ∧
    output_accounts exC8state = [Account.to_output (Account.new 1)] := by
  decide

/-- Claim C8 (amended): a row whose amount field is present but unparsable
makes `process_file` return that row's error — rows before it are processed,
the row itself and every later row are not; a deposit/withdrawal row whose
amount parses to a non-positive value is skipped silently: the ledger and
every existing account are untouched (only the empty account entry for the
row's client is get-or-created) and processing continues with the next row. -/
theorem claim_C8_amount_errors :
    (∀ (s s1 : TransactionProcessor) (pre : List RawRecord) (r : RawRecord)
        (rest : List RawRecord) (e : String),
      process_file s pre = Except.ok s1 →
      deserialize_optional_amount r.amount = Except.error e →
      process_file s (pre ++ r :: rest) = Except.error e) ∧
    (∀ (s : TransactionProcessor) (r : RawRecord) (rest : List RawRecord) (v : Decimal),
      (r.transaction_type = TransactionType.Deposit ∨
        r.transaction_type = TransactionType.Withdrawal) →
      deserialize_optional_amount r.amount = Except.ok (some v) →
      v.le Decimal.ZERO = true →
      process_file s (r :: rest) =
        process_file { s with accounts := getOrCreateA s.accounts r.client } rest) := by
  constructor
  · intro s s1 pre r rest e hpre herr
    rw [process_file_append, hpre]
    show process_file s1 (r :: rest) = _
    simp only [process_file, herr]
  · intro s r rest v hty hok hle
    simp only [process_file, hok]
    rcases hty with h | h
    · simp [process_transaction, h, handle_deposit, hle]
    · simp [process_transaction, h, handle_withdrawal, hle]

/-- Witness for the amended C8: a concrete unparsable-amount row aborts the
file with its error, and a concrete zero-amount deposit row is skipped with
only the account entry created. -/
theorem claim_C8_amount_errors_witness :
    process_file TransactionProcessor.new [exC8badRow, exC8goodRow] =
      Except.error "Invalid amount: abc" ∧
    process_file TransactionProcessor.new [exC8zeroRow] =
      process_file
        { TransactionProcessor.new with
            accounts := getOrCreateA TransactionProcessor.new.accounts exC8zeroRow.client }
        [] :=
  ⟨claim_C8_amount_errors.1 TransactionProcessor.new TransactionProcessor.new []
      exC8badRow [exC8goodRow] "Invalid amount: abc" rfl (by decide),
   claim_C8_amount_errors.2 TransactionProcessor.new exC8zeroRow [] ⟨0, 0⟩
      (Or.inl rfl) (by decide) (by decide)⟩
